import Mathlib

set_option maxHeartbeats 1000000
set_option maxRecDepth 8000

/-! Verification of the Cypher-Laboratory ring-signature library.

Constants below are transcribed from
src/dist/src/utils/noble-libraries/noble-SECP256k1.js. -/

def B256 : Nat := 2 ^ 256

def Psecp : Int := (B256 : Int) - 0x1000003d1

def Nsecp : Nat := B256 - 0x14551231950b75fc4402da1732fc9bebf

def NsecpI : Int := (Nsecp : Int)

def GxI : Int := 0x79be667ef9dcbbac55a06295ce870b07029bfcdb2dce28d959f2815b16f81798

def GyI : Int := 0x483ada7726a3c4655da4fbfc0e1108a8fd17b448a68554199c47d08ffb10d4b8

instance : NeZero Nsecp := ⟨by decide⟩

/-- JavaScript helper mod(a, b) from noble-SECP256k1.js lines 22-25:
r = a % b (BigInt remainder, i.e. truncated remainder) and then
r >= 0 ? r : b + r.  The utils "modulo" helper used by the ring code has
the same body. -/
def jsMod (a b : Int) : Int :=
  let r := a.tmod b
  if 0 ≤ r then r else b + r

/-- Field reduction: noble mod with its default modulus P. -/
def fmod (a : Int) : Int := jsMod a Psecp

/-- Projective (x, y, z) point of noble-SECP256k1.js (class SECP256K1Point). -/
structure PPoint where
  px : Int
  py : Int
  pz : Int
deriving DecidableEq, Repr

/-- SECP256K1Point.BASE : the generator in projective coordinates. -/
def Gnoble : PPoint := ⟨GxI, GyI, 1⟩

/-- SECP256K1Point.ZERO : the identity point (0, 1, 0). -/
def Inoble : PPoint := ⟨0, 1, 0⟩

/-- SECP256K1Point.add: the complete Renes-Costello-Batina addition formula,
transcribed step by step from noble-SECP256k1.js lines 57-102 (with a = 0,
b3 = mod(3 * 7)). -/
def nobleAdd (p q : PPoint) : PPoint :=
  let X1 := p.px; let Y1 := p.py; let Z1 := p.pz
  let X2 := q.px; let Y2 := q.py; let Z2 := q.pz
  let a : Int := 0
  let b3 : Int := fmod (7 * 3)
  let t0 := fmod (X1 * X2)
  let t1 := fmod (Y1 * Y2)
  let t2 := fmod (Z1 * Z2)
  let t3 := fmod (X1 + Y1)
  let t4 := fmod (X2 + Y2)
  let t3 := fmod (t3 * t4)
  let t4 := fmod (t0 + t1)
  let t3 := fmod (t3 - t4)
  let t4 := fmod (X1 + Z1)
  let t5 := fmod (X2 + Z2)
  let t4 := fmod (t4 * t5)
  let t5 := fmod (t0 + t2)
  let t4 := fmod (t4 - t5)
  let t5 := fmod (Y1 + Z1)
  let X3 := fmod (Y2 + Z2)
  let t5 := fmod (t5 * X3)
  let X3 := fmod (t1 + t2)
  let t5 := fmod (t5 - X3)
  let Z3 := fmod (a * t4)
  let X3 := fmod (b3 * t2)
  let Z3 := fmod (X3 + Z3)
  let X3 := fmod (t1 - Z3)
  let Z3 := fmod (t1 + Z3)
  let Y3 := fmod (X3 * Z3)
  let t1 := fmod (t0 + t0)
  let t1 := fmod (t1 + t0)
  let t2 := fmod (a * t2)
  let t4 := fmod (b3 * t4)
  let t1 := fmod (t1 + t2)
  let t2 := fmod (t0 - t2)
  let t2 := fmod (a * t2)
  let t4 := fmod (t4 + t2)
  let t0 := fmod (t1 * t4)
  let Y3 := fmod (Y3 + t0)
  let t0 := fmod (t5 * t4)
  let X3 := fmod (t3 * X3)
  let X3 := fmod (X3 - t0)
  let t0 := fmod (t3 * t1)
  let Z3 := fmod (t5 * Z3)
  let Z3 := fmod (Z3 + t0)
  ⟨X3, Y3, Z3⟩

/-- SECP256K1Point.equals: cross-multiplied projective comparison. -/
def nobleEquals (p q : PPoint) : Bool :=
  fmod (p.px * q.pz) == fmod (q.px * p.pz) && fmod (p.py * q.pz) == fmod (q.py * p.pz)

/-- The double-and-add ladder body of SECP256K1Point.mul in safe mode
(noble-SECP256k1.js lines 110-117), instrumented with counters for the
point additions and doublings it performs.  Each iteration doubles d once
and adds d into either the accumulator p (bit set) or the decoy f (bit
clear), exactly as in the source. -/
def mulLoop (d p f : PPoint) (n : Nat) (adds doubles : Nat) : PPoint × Nat × Nat :=
  if h : n = 0 then (p, adds, doubles)
  else
    mulLoop (nobleAdd d d) (if n % 2 = 1 then nobleAdd p d else p)
      (if n % 2 = 1 then f else nobleAdd f d) (n / 2) (adds + 1) (doubles + 1)
termination_by n
decreasing_by
  exact Nat.div_lt_self (Nat.pos_of_ne_zero h) one_lt_two

/-- SECP256K1Point.mul in safe mode: rejects scalars outside [1, N-1]
(the ge() guard), then runs the ladder from p = ZERO, f = BASE.
The returned pair of Nats counts (additions, doublings). -/
def nobleMulSafe (pt : PPoint) (n : Nat) : Except String (PPoint × Nat × Nat) :=
  if 0 < n ∧ n < Nsecp then .ok (mulLoop pt Inoble Gnoble n 0 0)
  else .error "invalid scalar"

/-- Bit length of a scalar: the number of iterations the mul ladder runs. -/
def bitLen (n : Nat) : Nat :=
  if h : n = 0 then 0 else bitLen (n / 2) + 1
termination_by n
decreasing_by
  exact Nat.div_lt_self (Nat.pos_of_ne_zero h) one_lt_two

/-- The extended-Euclid loop of inv() in noble-SECP256k1.js lines 197-204.
State (a, b, x, y, u, v) updates to (b mod a, a, u, v, x - u*(b/a), y - v*(b/a)). -/
def invLoop (a b : Nat) (x y u v : Int) (md : Int) : Except String Int :=
  if h : a = 0 then
    if b = 1 then .ok (jsMod x md) else .error "no inverse"
  else
    invLoop (b % a) a u v (x - u * ((b / a : Nat) : Int)) (y - v * ((b / a : Nat) : Int)) md
termination_by a
decreasing_by
  exact Nat.mod_lt _ (Nat.pos_of_ne_zero h)

/-- inv() of noble-SECP256k1.js: modular inverse by extended Euclid. -/
def invNoble (num md : Int) : Except String Int :=
  if num = 0 ∨ md ≤ 0 then .error "no inverse"
  else invLoop (jsMod num md).toNat md.toNat 0 1 1 0 md

/-- SECP256K1Point.toAffine (noble-SECP256k1.js lines 124-135): fast paths
for the identity ((0, 0)) and z = 1, otherwise divide by z. -/
def toAffineNoble (p : PPoint) : Except String (Int × Int) :=
  if nobleEquals p Inoble then .ok (0, 0)
  else if p.pz = 1 then .ok (p.px, p.py)
  else
    match invNoble p.pz Psecp with
    | .error e => .error e
    | .ok iz =>
        if fmod (p.pz * iz) ≠ 1 then .error "invalid inverse"
        else .ok (fmod (p.px * iz), fmod (p.py * iz))

/-- Curve.isOnCurve for SECP256K1 from src/dist/src/curves.js lines 85-90:
reject any coordinate outside (0, P), then test the curve equation
modulo(x^3 + 7 - y^2, P) === 0. -/
def isOnCurveSecp (x y : Int) : Bool :=
  if x ≥ Psecp || y ≥ Psecp || x ≤ 0 || y ≤ 0 then false
  else jsMod (x ^ 3 + 7 - y ^ 2) Psecp == 0

/-- Modelled from the spec: the checkRing implementation (the current
src/ringSignature.ts checkRing) is not among the sources, only its
declaration and its tests are.  Spec 4.2: fail with EmptyRing when the ring
is empty and emptiness is not allowed, with DuplicateRingMember when two
entries are affine-equal, with InvalidPoint when an entry fails isOnCurve.
Points are given by their affine coordinates; the on-curve test is the real
Curve.isOnCurve of src/dist/src/curves.js. -/
inductive RErr where
  | emptyRing
  | lenMismatch
  | duplicates
  | invalidParams
  | invalidPoint
  | invalidScalar
deriving DecidableEq, Repr

def checkRingModel (ring : List (Int × Int)) (allowEmpty : Bool) : Except RErr Unit :=
  if ring.length = 0 && !allowEmpty then .error .emptyRing
  else if ring.dedup.length ≠ ring.length then .error .duplicates
  else if ring.any (fun p => !(isOnCurveSecp p.1 p.2)) then .error .invalidPoint
  else .ok ()

/-! The ring-signature protocol (the compiled RingSignature class shipped in
src/dist, i.e. the second half of src/dist/src/signature/piSignature.d.ts). -/

/-- Modelled from the spec: the Point class (dist/src/point) is not among
the sources; the spec (sections 2 and 4.1) describes the curve group as a
cyclic group of order N with generator G, so the subgroup generated by G is
modelled by discrete logarithms, i.e. elements of ZMod N, with G at
logarithm 1.  The field oid models JavaScript object identity (reference
equality): the dist duplicate check uses a JS Set, whose membership test on
objects compares references, never coordinates. -/
structure PointO where
  oid : Nat
  v : ZMod Nsecp
deriving DecidableEq

/-- The generator as a Point (curve.GtoPoint()). -/
def Gpt : PointO := ⟨0, 1⟩

/-- Point.mult: scalar multiplication, a fresh object whose group value is
the scalar multiple.  The scalar-range guard of spec 4.1 is modelled
separately by pmulE below. -/
def pmul (k : Int) (p : PointO) : PointO := ⟨0, (k : ZMod Nsecp) * p.v⟩

/-- Modelled from the spec: Point.mult with its error path.  Spec 4.1:
scalarMul fails with InvalidScalar if k is not in [1, N-1], which is also
the safe-mode ge() guard of the in-src noble SECP256K1Point.mul. -/
def pmulE (k : Int) (p : PointO) : Except RErr PointO :=
  if 1 ≤ k ∧ k < NsecpI then .ok ⟨0, (k : ZMod Nsecp) * p.v⟩ else .error .invalidScalar

/-- Point.add: group addition, a fresh object. -/
def paddO (p q : PointO) : PointO := ⟨0, p.v + q.v⟩

/-- Point.equals: equality of group elements (affine coordinates), not of
object identity. -/
def pointEqB (p q : PointO) : Bool := decide (p.v = q.v)

/-- Modelled from the spec: Point.toString (serialization of a point into
the hash input) is not among the sources; any fixed function of the group
element is faithful here, and the decimal value of the discrete logarithm
is used. -/
def pStr (p : PointO) : String := Nat.repr p.v.val

/-- JavaScript array-to-string coercion used in "ring + messageDigest":
elements joined by commas. -/
def ringStr (ring : List PointO) : String :=
  String.intercalate "," (ring.map pStr)

/-- The keccak256 message digest as a string (js-sha3 returns a hex string);
the hash itself is an external collaborator, modelled as an arbitrary
function kc from strings to numbers, with the hex rendering of its value
standing for the digest string. -/
def hexDigest (kc : String → Nat) (message : String) : String :=
  String.mk (Nat.toDigits 16 (kc message))

/-- RingSignature.computeC (dist, lines 373-378): reduce modulo N the hash
of ring ++ messageDigest ++ (G.mult(r).add(previousPubKey.mult(previousC))).toString().
BigInt("0x" + keccak256(s)) is the numeric value kc s of the digest. -/
def computeC (kc : String → Nat) (ring2 : List PointO) (msgD : String)
    (r prevC : Int) (prevPub : PointO) : Int :=
  jsMod ((kc (ringStr ring2 ++ msgD ++ pStr (paddO (pmul r Gpt) (pmul prevC prevPub))) : Int)) NsecpI

/-- Sequential challenge chain: starting value c at ring index idx, each
step consumes resp[idx], the previous challenge and ring2[idx], exactly as
the cValuesPI1N / cValues0PI / verify loops do.  The produced list starts
with c and contains steps further challenges. -/
def chainList (kc : String → Nat) (ring2 : List PointO) (msgD : String) (resp : List Int) :
    Int → Nat → Nat → List Int
  | c, _, 0 => [c]
  | c, idx, steps + 1 =>
      c :: chainList kc ring2 msgD resp
        (computeC kc ring2 msgD (resp.getD idx 0) c (ring2.getD idx Gpt)) (idx + 1) steps

/-- The record returned by RingSignature.signature (dist, lines 310-372). -/
structure RawSig where
  ring : List PointO
  pi : Nat
  cees : List Int
  alpha : Int
  responses : List Int
deriving DecidableEq

/-- RingSignature.signature (dist, lines 310-372): splice the signer key at
pi, run the Set-based duplicate check, then build the challenge chain: the
seed c_(pi+1) hashes G.mult(alpha), the forward walk fills c_(pi+2)..c_(n-1),
wraps into c_0 and continues to c_pi; cees = cValues0PI ++ cValuesPI1N.
The random draws (alpha, pi, the fake responses) are passed in explicitly.
The duplicate check compares JS object references (see PointO.oid). -/
def signatureModel (kc : String → Nat) (ring : List PointO) (signerPubKey : PointO)
    (message : String) (alpha : Int) (pi : Nat) (fakes : Nat → Int) : Except RErr RawSig :=
  let msgD := hexDigest kc message
  let ring2 := ring.take pi ++ [signerPubKey] ++ ring.drop pi
  if ((ring2.map PointO.oid).dedup.length ≠ ring2.length) then .error .duplicates
  else
    let m := ring2.length
    let responses := (List.range m).map fakes
    let seed := jsMod ((kc (ringStr ring2 ++ msgD ++ pStr (pmul alpha Gpt)) : Int)) NsecpI
    let cV1N := chainList kc ring2 msgD responses seed (pi + 1) (m - pi - 2)
    let c0 := computeC kc ring2 msgD (responses.getD (m - 1) 0) (cV1N.getLastD 0)
      (ring2.getD (m - 1) Gpt)
    let cV0PI := chainList kc ring2 msgD responses c0 0 pi
    .ok ⟨ring2, pi, cV0PI ++ cV1N, alpha, responses⟩

/-- Modelled from the spec: the piSignature implementation
(src/signature/piSignature) is not among the sources, only its declaration.
Spec 4.4: compute returns r = (alpha - c*privateKey) mod N and fails with
InvalidParams if privateKey is 0 or at least N. -/
def piSigModel (alpha c priv : Int) : Except RErr Int :=
  if priv = 0 ∨ NsecpI ≤ priv then .error .invalidParams
  else .ok (jsMod (alpha - c * priv) NsecpI)

/-- Modelled from the spec: the verifyPiSignature implementation is not
among the sources, only its declaration.  Spec 4.4: accept iff
G.mult(response).add(signerPubKey.mult(c)) equals G.mult(alpha) as group
elements. -/
def verifyPiSigModel (alpha : Int) (pub : PointO) (c r : Int) : Bool :=
  pointEqB (paddO (pmul r Gpt) (pmul c pub)) (pmul alpha Gpt)

/-- The RingSignature value object (message, ring, c, responses); the curve
is SECP256K1, the only member of the dist CurveName enum. -/
structure RingSigS where
  message : String
  ring : List PointO
  c : Int
  responses : List Int
deriving DecidableEq

/-- RingSignature.verify (dist, lines 261-289): throw for an empty ring,
then for a ring/responses length mismatch; for rings of length over one
walk the chain from c and accept iff the last step reproduces c; for a
length-1 ring check the Schnorr relation with alpha = (2c + 1) mod N. -/
def verifyModel (kc : String → Nat) (sig : RingSigS) : Except RErr Bool :=
  if sig.ring.length = 0 then .error .emptyRing
  else if sig.ring.length ≠ sig.responses.length then .error .lenMismatch
  else if 1 < sig.ring.length then
    let msgD := hexDigest kc sig.message
    let m := sig.ring.length
    let vl := chainList kc sig.ring msgD sig.responses sig.c 0 (m - 1)
    .ok (decide (sig.c = computeC kc sig.ring msgD (sig.responses.getD (m - 1) 0)
      (vl.getLastD 0) (sig.ring.getD (m - 1) Gpt)))
  else
    .ok (verifyPiSigModel (jsMod (2 * sig.c + 1) NsecpI) (sig.ring.getD 0 Gpt)
      sig.c (sig.responses.getD 0 0))

/-- RingSignature.computeC with the scalar-multiplication error path of
spec 4.1 threaded through: both G.mult(r) and previousPubKey.mult(previousC)
fail with InvalidScalar on a scalar outside [1, N-1], in the source's
evaluation order. -/
def computeCE (kc : String → Nat) (ring2 : List PointO) (msgD : String)
    (r prevC : Int) (prevPub : PointO) : Except RErr Int :=
  match pmulE r Gpt with
  | .error e => .error e
  | .ok a =>
      match pmulE prevC prevPub with
      | .error e => .error e
      | .ok b =>
          .ok (jsMod ((kc (ringStr ring2 ++ msgD ++ pStr (paddO a b)) : Int)) NsecpI)

/-- The verify loop producing the last recomputed challenge, with the
scalar-multiplication errors propagated: k computeCE steps from c at ring
index idx. -/
def chainLastE (kc : String → Nat) (ring2 : List PointO) (msgD : String) (resp : List Int) :
    Int → Nat → Nat → Except RErr Int
  | c, _, 0 => .ok c
  | c, idx, k + 1 =>
      match computeCE kc ring2 msgD (resp.getD idx 0) c (ring2.getD idx Gpt) with
      | .error e => .error e
      | .ok c2 => chainLastE kc ring2 msgD resp c2 (idx + 1) k

/-- Modelled from the spec: verifyPiSignature (spec 4.4) with the
scalar-multiplication error path: G.mult(response), signerPubKey.mult(c)
and G.mult(alpha) each fail with InvalidScalar outside [1, N-1]. -/
def verifyPiSigModelE (alpha : Int) (pub : PointO) (c r : Int) : Except RErr Bool :=
  match pmulE r Gpt with
  | .error e => .error e
  | .ok a =>
      match pmulE c pub with
      | .error e => .error e
      | .ok b =>
          match pmulE alpha Gpt with
          | .error e => .error e
          | .ok g => .ok (pointEqB (paddO a b) g)

/-- RingSignature.verify (dist, lines 261-289) with the absent Point.mult
modelled fallibly per spec 4.1 (see pmulE): the same checks and chain walk
as verifyModel, but a scalar outside [1, N-1] reaching a multiplication
(the signature's c, a response, or a recomputed challenge) surfaces as
InvalidScalar instead of being reduced silently. -/
def verifyModelE (kc : String → Nat) (sig : RingSigS) : Except RErr Bool :=
  if sig.ring.length = 0 then .error .emptyRing
  else if sig.ring.length ≠ sig.responses.length then .error .lenMismatch
  else if 1 < sig.ring.length then
    match chainLastE kc sig.ring (hexDigest kc sig.message) sig.responses sig.c 0
      (sig.ring.length - 1) with
    | .error e => .error e
    | .ok last =>
        match computeCE kc sig.ring (hexDigest kc sig.message)
          (sig.responses.getD (sig.ring.length - 1) 0) last
          (sig.ring.getD (sig.ring.length - 1) Gpt) with
        | .error e => .error e
        | .ok last2 => .ok (decide (sig.c = last2))
  else
    verifyPiSigModelE (jsMod (2 * sig.c + 1) NsecpI) (sig.ring.getD 0 Gpt) sig.c
      (sig.responses.getD 0 0)

/-- RingSignature.sign (dist, lines 155-180): for an empty ring draw c, set
alpha = (2c + 1) mod N and return the single piSignature response over the
derived public key; otherwise run signature() and splice the signer
response, computed from cees[pi], at index pi.  The random draws (rc for
the empty branch, alpha, pi and the fake responses otherwise) are explicit
parameters. -/
def signModel (kc : String → Nat) (ring : List PointO) (priv : Int) (message : String)
    (rc alpha : Int) (pi : Nat) (fakes : Nat → Int) : Except RErr RingSigS :=
  if ring.length = 0 then
    match piSigModel (jsMod (2 * rc + 1) NsecpI) rc priv with
    | .error e => .error e
    | .ok s => .ok ⟨message, [pmul priv Gpt], rc, [s]⟩
  else
    match signatureModel kc ring (pmul priv Gpt) message alpha pi fakes with
    | .error e => .error e
    | .ok raw =>
      match piSigModel raw.alpha (raw.cees.getD raw.pi 0) priv with
      | .error e => .error e
      | .ok sr =>
        .ok ⟨message, raw.ring, raw.cees.getD 0 0,
             raw.responses.take raw.pi ++ [sr] ++ raw.responses.drop (raw.pi + 1)⟩

/-- The PartialSignature record of the dist implementation. -/
structure PSigS where
  message : String
  ring : List PointO
  c : Int
  cpi : Int
  responses : List Int
  pi : Nat
  alpha : Int
deriving DecidableEq

/-- RingSignature.combine (dist, lines 249-255): splice the signer response
at index pi and hand everything to the RingSignature constructor, whose only
check (safeMode defaults to false) is the ring/responses length equality.
No field of the partial signature and no response is validated. -/
def combineModel (ps : PSigS) (signerResponse : Int) : Except RErr RingSigS :=
  let resp := ps.responses.take ps.pi ++ [signerResponse] ++ ps.responses.drop (ps.pi + 1)
  if ps.ring.length ≠ resp.length then .error .lenMismatch
  else .ok ⟨ps.message, ps.ring, ps.c, resp⟩

/-- The duplicate check of the older implementation, src/src/ringSignature.ts
lines 166-174: a nested loop comparing both coordinates of every pair. -/
def oldRingHasDuplicate (ring : List (Int × Int)) : Bool :=
  (List.range ring.length).any fun i =>
    (List.range ring.length).any fun j =>
      decide (i < j) && (ring.getD i (0, 0)).1 == (ring.getD j (0, 0)).1 &&
        (ring.getD i (0, 0)).2 == (ring.getD j (0, 0)).2

/-- A Boolean view of Except success. -/
def exOk {ε α : Type} : Except ε α → Bool
  | .ok _ => true
  | .error _ => false

instance {ε α : Type} [DecidableEq ε] [DecidableEq α] : DecidableEq (Except ε α)
  | .ok a, .ok b =>
      if h : a = b then .isTrue (by rw [h]) else .isFalse (by simp [h])
  | .ok _, .error _ => .isFalse (by simp)
  | .error _, .ok _ => .isFalse (by simp)
  | .error e, .error f =>
      if h : e = f then .isTrue (by rw [h]) else .isFalse (by simp [h])

/-- The constant-zero stand-in hash used by concrete witnesses. -/
def kZero : String → Nat := fun _ => 0

/-! Arithmetic facts about the JavaScript mod helper. -/

theorem neg_tmod_eq (a b : Int) : (-a).tmod b = -(a.tmod b) := by
  rw [Int.tmod_def, Int.tmod_def, Int.neg_tdiv, Int.mul_neg, Int.sub_neg, Int.neg_sub]
  ring

theorem tmod_gt_neg (a : Int) {b : Int} (hb : 0 < b) : -b < a.tmod b := by
  rcases le_or_lt 0 a with ha | ha
  · have h0 : 0 ≤ a.tmod b := Int.tmod_nonneg b ha
    omega
  · have h1 : (-a).tmod b < b := Int.tmod_lt_of_pos (-a) hb
    rw [neg_tmod_eq] at h1
    omega

theorem jsMod_bounds (a : Int) {b : Int} (hb : 0 < b) : 0 ≤ jsMod a b ∧ jsMod a b < b := by
  unfold jsMod
  have h1 : a.tmod b < b := Int.tmod_lt_of_pos a hb
  have h2 : -b < a.tmod b := tmod_gt_neg a hb
  by_cases h : 0 ≤ a.tmod b <;> simp [h] <;> omega

theorem jsMod_sub_dvd (a b : Int) : b ∣ (jsMod a b - a) := by
  unfold jsMod
  have hd : b * a.tdiv b + a.tmod b = a := Int.tdiv_add_tmod a b
  by_cases h : 0 ≤ a.tmod b
  · simp only [h, if_true]
    exact ⟨-(a.tdiv b), by linarith⟩
  · simp only [h, if_false]
    exact ⟨1 - a.tdiv b, by ring_nf; linarith⟩

theorem jsMod_emod (a b : Int) : jsMod a b % b = a % b := by
  have h := Int.modEq_iff_dvd.mpr (jsMod_sub_dvd a b)
  exact h.symm

theorem jsMod_intCast (a : Int) :
    ((jsMod a NsecpI : Int) : ZMod Nsecp) = (a : ZMod Nsecp) := by
  have hd : (Nsecp : Int) ∣ (jsMod a NsecpI - a) := by
    have := jsMod_sub_dvd a NsecpI
    simpa [NsecpI] using this
  have h0 : ((jsMod a NsecpI - a : Int) : ZMod Nsecp) = 0 :=
    (ZMod.intCast_zmod_eq_zero_iff_dvd _ _).mpr hd
  push_cast at h0
  linear_combination h0

/-! Indexing helpers for List.getD. -/

theorem getD_append_left {α : Type} (d : α) (l1 l2 : List α) (i : Nat) (h : i < l1.length) :
    (l1 ++ l2).getD i d = l1.getD i d := by
  induction l1 generalizing i with
  | nil => simp at h
  | cons a t ih =>
    cases i with
    | zero => rfl
    | succ j => simpa using ih j (by simpa using h)

theorem getD_append_right {α : Type} (d : α) (l1 l2 : List α) (i : Nat) (h : l1.length ≤ i) :
    (l1 ++ l2).getD i d = l2.getD (i - l1.length) d := by
  induction l1 generalizing i with
  | nil => simp
  | cons a t ih =>
    cases i with
    | zero => simp at h
    | succ j => simpa using ih j (by simpa using h)

theorem getD_take {α : Type} (d : α) (l : List α) (k i : Nat) (h : i < k) :
    (l.take k).getD i d = l.getD i d := by
  induction l generalizing k i with
  | nil => simp
  | cons a t ih =>
    cases k with
    | zero => omega
    | succ k2 =>
      cases i with
      | zero => rfl
      | succ j => simpa using ih k2 j (by omega)

theorem getD_drop {α : Type} (d : α) (l : List α) (k j : Nat) :
    (l.drop k).getD j d = l.getD (k + j) d := by
  induction k generalizing l with
  | zero => simp
  | succ k2 ih =>
    cases l with
    | nil => simp
    | cons a t =>
      have : k2 + 1 + j = (k2 + j) + 1 := by omega
      simp [this, ih t]

theorem getD_range_map {α : Type} (d : α) (f : Nat → α) (n i : Nat) (h : i < n) :
    (((List.range n).map f).getD i d) = f i := by
  have h1 : ((List.range n).map f).length = n := by simp
  have h2 := List.getD_eq_getElem ((List.range n).map f) d (by omega : i < ((List.range n).map f).length)
  rw [h2]
  simp

/-! Splice indexing: l.take pi ++ [x] ++ l.drop k. -/

theorem splice_length {α : Type} (l : List α) (x : α) (pi : Nat) (h : pi ≤ l.length) :
    (l.take pi ++ [x] ++ l.drop pi).length = l.length + 1 := by
  simp
  omega

theorem splice_resp_length {α : Type} (l : List α) (x : α) (pi : Nat) (h : pi < l.length) :
    (l.take pi ++ [x] ++ l.drop (pi + 1)).length = l.length := by
  simp
  omega

theorem splice_getD_lt {α : Type} (d : α) (l : List α) (x : α) (k pi i : Nat)
    (hpi : pi ≤ l.length) (h : i < pi) :
    (l.take pi ++ [x] ++ l.drop k).getD i d = l.getD i d := by
  rw [List.append_assoc, getD_append_left d _ _ i (by simp; omega), getD_take d l pi i h]

theorem splice_getD_mid {α : Type} (d : α) (l : List α) (x : α) (k pi : Nat)
    (hpi : pi ≤ l.length) :
    (l.take pi ++ [x] ++ l.drop k).getD pi d = x := by
  rw [List.append_assoc, getD_append_right d _ _ pi (by simp)]
  have : pi - (l.take pi).length = 0 := by simp; omega
  rw [this]
  rfl

theorem splice_getD_gt {α : Type} (d : α) (l : List α) (x : α) (k pi i : Nat)
    (hpi : pi ≤ l.length) (h : pi < i) :
    (l.take pi ++ [x] ++ l.drop k).getD i d = l.getD (k + (i - pi - 1)) d := by
  rw [List.append_assoc, getD_append_right d _ _ i (by simp; omega)]
  have h1 : i - (l.take pi).length = (i - pi - 1) + 1 := by simp; omega
  rw [h1]
  simpa using getD_drop d l k (i - pi - 1)

/-! Proof view of the challenge chain: its iterate and its tail. -/

/-- The value of the challenge chain after k steps. -/
def citer (kc : String → Nat) (ring2 : List PointO) (msgD : String) (resp : List Int) :
    Int → Nat → Nat → Int
  | c, _, 0 => c
  | c, idx, k + 1 =>
      citer kc ring2 msgD resp
        (computeC kc ring2 msgD (resp.getD idx 0) c (ring2.getD idx Gpt)) (idx + 1) k

/-- The challenges produced after the start value. -/
def chainTail (kc : String → Nat) (ring2 : List PointO) (msgD : String) (resp : List Int) :
    Int → Nat → Nat → List Int
  | _, _, 0 => []
  | c, idx, k + 1 =>
      computeC kc ring2 msgD (resp.getD idx 0) c (ring2.getD idx Gpt) ::
        chainTail kc ring2 msgD resp
          (computeC kc ring2 msgD (resp.getD idx 0) c (ring2.getD idx Gpt)) (idx + 1) k

theorem chainList_eq_cons (kc : String → Nat) (ring2 : List PointO) (msgD : String)
    (resp : List Int) (c : Int) (idx k : Nat) :
    chainList kc ring2 msgD resp c idx k = c :: chainTail kc ring2 msgD resp c idx k := by
  induction k generalizing c idx with
  | zero => rfl
  | succ k2 ih =>
    show c :: chainList kc ring2 msgD resp _ (idx + 1) k2 = _
    rw [ih]
    rfl

theorem chainTail_add (kc : String → Nat) (ring2 : List PointO) (msgD : String)
    (resp : List Int) (c : Int) (idx a b : Nat) :
    chainTail kc ring2 msgD resp c idx (a + b) =
      chainTail kc ring2 msgD resp c idx a ++
        chainTail kc ring2 msgD resp (citer kc ring2 msgD resp c idx a) (idx + a) b := by
  induction a generalizing c idx with
  | zero => simp [chainTail, citer]
  | succ a2 ih =>
    have h1 : a2 + 1 + b = (a2 + b) + 1 := by omega
    rw [h1]
    show (_ :: chainTail kc ring2 msgD resp _ (idx + 1) (a2 + b)) = _
    rw [ih]
    have h2 : idx + (a2 + 1) = (idx + 1) + a2 := by omega
    rw [h2]
    rfl

theorem chainTail_length (kc : String → Nat) (ring2 : List PointO) (msgD : String)
    (resp : List Int) (c : Int) (idx k : Nat) :
    (chainTail kc ring2 msgD resp c idx k).length = k := by
  induction k generalizing c idx with
  | zero => rfl
  | succ k2 ih => simpa [chainTail] using ih _ _

theorem chainList_length (kc : String → Nat) (ring2 : List PointO) (msgD : String)
    (resp : List Int) (c : Int) (idx k : Nat) :
    (chainList kc ring2 msgD resp c idx k).length = k + 1 := by
  rw [chainList_eq_cons]
  simp [chainTail_length]

theorem chainList_getLastD (kc : String → Nat) (ring2 : List PointO) (msgD : String)
    (resp : List Int) (c : Int) (idx k : Nat) (d : Int) :
    (chainList kc ring2 msgD resp c idx k).getLastD d = citer kc ring2 msgD resp c idx k := by
  induction k generalizing c idx d with
  | zero => rfl
  | succ k2 ih =>
    show (c :: chainList kc ring2 msgD resp _ (idx + 1) k2).getLastD d = _
    rw [List.getLastD_cons, ih]
    rfl

theorem chainList_getD_head (kc : String → Nat) (ring2 : List PointO) (msgD : String)
    (resp : List Int) (c : Int) (idx k : Nat) (d : Int) :
    (chainList kc ring2 msgD resp c idx k).getD 0 d = c := by
  rw [chainList_eq_cons]
  rfl

theorem chainList_getD_last (kc : String → Nat) (ring2 : List PointO) (msgD : String)
    (resp : List Int) (c : Int) (idx k : Nat) (d : Int) :
    (chainList kc ring2 msgD resp c idx k).getD k d = citer kc ring2 msgD resp c idx k := by
  induction k generalizing c idx with
  | zero => rfl
  | succ k2 ih =>
    show (c :: chainList kc ring2 msgD resp _ (idx + 1) k2).getD (k2 + 1) d = _
    rw [List.getD_cons_succ, ih]
    rfl

theorem citer_congr (kc : String → Nat) (ring2 : List PointO) (msgD : String)
    (resp resp2 : List Int) (c : Int) (idx k : Nat)
    (h : ∀ i, idx ≤ i → i < idx + k → resp.getD i 0 = resp2.getD i 0) :
    citer kc ring2 msgD resp c idx k = citer kc ring2 msgD resp2 c idx k := by
  induction k generalizing c idx with
  | zero => rfl
  | succ k2 ih =>
    show citer kc ring2 msgD resp _ (idx + 1) k2 = citer kc ring2 msgD resp2 _ (idx + 1) k2
    rw [h idx (by omega) (by omega)]
    exact ih _ _ (fun i h1 h2 => h i (by omega) (by omega))

theorem chainTail_congr (kc : String → Nat) (ring2 : List PointO) (msgD : String)
    (resp resp2 : List Int) (c : Int) (idx k : Nat)
    (h : ∀ i, idx ≤ i → i < idx + k → resp.getD i 0 = resp2.getD i 0) :
    chainTail kc ring2 msgD resp c idx k = chainTail kc ring2 msgD resp2 c idx k := by
  induction k generalizing c idx with
  | zero => rfl
  | succ k2 ih =>
    show (_ :: chainTail kc ring2 msgD resp _ (idx + 1) k2) =
      (_ :: chainTail kc ring2 msgD resp2 _ (idx + 1) k2)
    rw [h idx (by omega) (by omega)]
    exact congrArg _ (ih _ _ (fun i h1 h2 => h i (by omega) (by omega)))

theorem chainList_congr (kc : String → Nat) (ring2 : List PointO) (msgD : String)
    (resp resp2 : List Int) (c : Int) (idx k : Nat)
    (h : ∀ i, idx ≤ i → i < idx + k → resp.getD i 0 = resp2.getD i 0) :
    chainList kc ring2 msgD resp c idx k = chainList kc ring2 msgD resp2 c idx k := by
  rw [chainList_eq_cons, chainList_eq_cons, chainTail_congr kc ring2 msgD resp resp2 c idx k h]

theorem getLastD_append_cons {α : Type} (d : α) (l1 : List α) (c : α) (t : List α) :
    (l1 ++ c :: t).getLastD d = (c :: t).getLastD d := by
  induction l1 generalizing d with
  | nil => rfl
  | cons a t1 ih =>
    rw [List.cons_append, List.getLastD_cons, ih a, List.getLastD_cons, List.getLastD_cons]

/-- Every challenge in the chain after the start is a jsMod-reduced hash,
hence lies in the interval from 0 to N. -/
theorem chainTail_mem_bounds (kc : String → Nat) (ring2 : List PointO) (msgD : String)
    (resp : List Int) (c : Int) (idx k : Nat) :
    ∀ x ∈ chainTail kc ring2 msgD resp c idx k, 0 ≤ x ∧ x < NsecpI := by
  induction k generalizing c idx with
  | zero => intro x hx; simp [chainTail] at hx
  | succ k2 ih =>
    intro x hx
    rw [show chainTail kc ring2 msgD resp c idx (k2 + 1) =
      computeC kc ring2 msgD (resp.getD idx 0) c (ring2.getD idx Gpt) ::
        chainTail kc ring2 msgD resp
          (computeC kc ring2 msgD (resp.getD idx 0) c (ring2.getD idx Gpt)) (idx + 1) k2
      from rfl] at hx
    rcases List.mem_cons.mp hx with h1 | h1
    · subst h1
      exact jsMod_bounds _ (by decide)
    · exact ih _ _ x h1

/-! The Schnorr relation that closes the chain at the signer slot. -/

theorem schnorr_point (alpha c priv : Int) :
    paddO (pmul (jsMod (alpha - c * priv) NsecpI) Gpt) (pmul c (pmul priv Gpt)) =
      pmul alpha Gpt := by
  unfold paddO pmul Gpt
  simp only [PointO.mk.injEq, true_and]
  rw [jsMod_intCast]
  push_cast
  ring

theorem schnorr_step (kc : String → Nat) (ring2 : List PointO) (msgD : String)
    (alpha cpi priv : Int) :
    computeC kc ring2 msgD (jsMod (alpha - cpi * priv) NsecpI) cpi (pmul priv Gpt) =
      jsMod ((kc (ringStr ring2 ++ msgD ++ pStr (pmul alpha Gpt)) : Int)) NsecpI := by
  unfold computeC
  rw [schnorr_point]

/-! Unfolding equations for the models. -/

theorem piSigModel_ok (alpha c priv : Int) (h1 : 1 ≤ priv) (h2 : priv < NsecpI) :
    piSigModel alpha c priv = .ok (jsMod (alpha - c * priv) NsecpI) := by
  unfold piSigModel
  rw [if_neg (by omega)]

theorem verifyModel_big (kc : String → Nat) (sig : RingSigS) (h1 : 1 < sig.ring.length)
    (h2 : sig.ring.length = sig.responses.length) :
    verifyModel kc sig = .ok (decide (sig.c = computeC kc sig.ring (hexDigest kc sig.message)
      (sig.responses.getD (sig.ring.length - 1) 0)
      ((chainList kc sig.ring (hexDigest kc sig.message) sig.responses sig.c 0
        (sig.ring.length - 1)).getLastD 0)
      (sig.ring.getD (sig.ring.length - 1) Gpt))) := by
  unfold verifyModel
  rw [if_neg (by omega), if_neg (by omega), if_pos h1]

theorem verifyModel_one (kc : String → Nat) (sig : RingSigS) (h1 : sig.ring.length = 1)
    (h2 : sig.responses.length = 1) :
    verifyModel kc sig = .ok (verifyPiSigModel (jsMod (2 * sig.c + 1) NsecpI)
      (sig.ring.getD 0 Gpt) sig.c (sig.responses.getD 0 0)) := by
  unfold verifyModel
  rw [if_neg (by omega), if_neg (by omega), if_neg (by omega)]

theorem signatureModel_ok (kc : String → Nat) (ring : List PointO) (pub : PointO)
    (msg : String) (alpha : Int) (pi : Nat) (fakes : Nat → Int)
    (R2 : List PointO) (msgD : String) (fk : List Int) (seed : Int) (cV1N : List Int)
    (c0 : Int) (cV0PI : List Int)
    (hR2 : R2 = ring.take pi ++ [pub] ++ ring.drop pi)
    (hmsgD : msgD = hexDigest kc msg)
    (hfk : fk = (List.range R2.length).map fakes)
    (hseed : seed = jsMod ((kc (ringStr R2 ++ msgD ++ pStr (pmul alpha Gpt)) : Int)) NsecpI)
    (hcV1N : cV1N = chainList kc R2 msgD fk seed (pi + 1) (R2.length - pi - 2))
    (hc0 : c0 = computeC kc R2 msgD (fk.getD (R2.length - 1) 0) (cV1N.getLastD 0)
      (R2.getD (R2.length - 1) Gpt))
    (hcV0 : cV0PI = chainList kc R2 msgD fk c0 0 pi)
    (hdup : (R2.map PointO.oid).dedup.length = R2.length) :
    signatureModel kc ring pub msg alpha pi fakes = .ok ⟨R2, pi, cV0PI ++ cV1N, alpha, fk⟩ := by
  subst hR2 hmsgD hfk hseed hcV1N hc0 hcV0
  unfold signatureModel
  rw [if_neg (by omega)]

/-- The heart of claim C1: with the signer response spliced in, the forward
walk of verify reproduces exactly the cees built by signature(), and the
final wrap step reproduces c0. -/
theorem chain_closes (kc : String → Nat) (R : List PointO) (msgD : String) (fk : List Int)
    (pi : Nat) (alpha priv : Int) (seed : Int) (cV1N : List Int) (c0 : Int)
    (cV0PI cees : List Int) (cpi rpi : Int) (fin : List Int)
    (hm : pi + 2 ≤ R.length)
    (hfk : fk.length = R.length)
    (hK : R.getD pi Gpt = pmul priv Gpt)
    (hseed : seed = jsMod ((kc (ringStr R ++ msgD ++ pStr (pmul alpha Gpt)) : Int)) NsecpI)
    (hcV1N : cV1N = chainList kc R msgD fk seed (pi + 1) (R.length - pi - 2))
    (hc0 : c0 = computeC kc R msgD (fk.getD (R.length - 1) 0) (cV1N.getLastD 0)
      (R.getD (R.length - 1) Gpt))
    (hcV0 : cV0PI = chainList kc R msgD fk c0 0 pi)
    (hcees : cees = cV0PI ++ cV1N)
    (hcpi : cpi = cees.getD pi 0)
    (hrpi : rpi = jsMod (alpha - cpi * priv) NsecpI)
    (hfin : fin = fk.take pi ++ [rpi] ++ fk.drop (pi + 1)) :
    chainList kc R msgD fin c0 0 (R.length - 1) = cees ∧
    computeC kc R msgD (fin.getD (R.length - 1) 0)
      ((chainList kc R msgD fin c0 0 (R.length - 1)).getLastD 0)
      (R.getD (R.length - 1) Gpt) = c0 := by
  have hpifk : pi ≤ fk.length := by omega
  have hfin_lt : ∀ i, i < pi → fin.getD i 0 = fk.getD i 0 := by
    intro i hi
    rw [hfin]
    exact splice_getD_lt 0 fk rpi (pi + 1) pi i hpifk hi
  have hfin_mid : fin.getD pi 0 = rpi := by
    rw [hfin]
    exact splice_getD_mid 0 fk rpi (pi + 1) pi hpifk
  have hfin_gt : ∀ i, pi < i → fin.getD i 0 = fk.getD i 0 := by
    intro i hi
    rw [hfin, splice_getD_gt 0 fk rpi (pi + 1) pi i hpifk hi]
    congr 1
    omega
  have hcpi2 : cpi = citer kc R msgD fk c0 0 pi := by
    rw [hcpi, hcees, getD_append_left 0 cV0PI cV1N pi
      (by rw [hcV0, chainList_length]; omega), hcV0, chainList_getD_last]
  -- the verify walk equals the cees list
  have hsplit : R.length - 1 = pi + (R.length - 1 - pi) := by omega
  have hsteps : R.length - 1 - pi = (R.length - pi - 2) + 1 := by omega
  have hciter_fin : citer kc R msgD fin c0 0 pi = cpi := by
    rw [citer_congr kc R msgD fin fk c0 0 pi (fun i h1 h2 => hfin_lt i (by omega)), hcpi2]
  have htail1 : chainTail kc R msgD fin c0 0 pi = chainTail kc R msgD fk c0 0 pi :=
    chainTail_congr kc R msgD fin fk c0 0 pi (fun i h1 h2 => hfin_lt i (by omega))
  have hstep_pi : computeC kc R msgD (fin.getD pi 0) cpi (R.getD pi Gpt) = seed := by
    rw [hfin_mid, hrpi, hK, schnorr_step, hseed]
  have htail2 : chainTail kc R msgD fin cpi pi (R.length - 1 - pi) =
      seed :: chainTail kc R msgD fk seed (pi + 1) (R.length - pi - 2) := by
    rw [hsteps]
    show computeC kc R msgD (fin.getD pi 0) cpi (R.getD pi Gpt) ::
      chainTail kc R msgD fin (computeC kc R msgD (fin.getD pi 0) cpi (R.getD pi Gpt))
        (pi + 1) (R.length - pi - 2) = _
    rw [hstep_pi]
    exact congrArg _ (chainTail_congr kc R msgD fin fk seed (pi + 1) (R.length - pi - 2)
      (fun i h1 h2 => hfin_gt i (by omega)))
  have hmain : chainList kc R msgD fin c0 0 (R.length - 1) = cees := by
    rw [chainList_eq_cons, hsplit, chainTail_add, hciter_fin, htail1, Nat.zero_add, htail2,
      hcees, hcV0, chainList_eq_cons, hcV1N, chainList_eq_cons]
    rfl
  refine ⟨hmain, ?_⟩
  rw [hmain, hcees, hcV1N, chainList_eq_cons, getLastD_append_cons, ← chainList_eq_cons,
    ← hcV1N, hfin_gt (R.length - 1) (by omega), ← hc0]

/-! Claim theorems. -/

/-- C1: for the supported curve, any message, any private key in [1, N-1]
and any ring of distinct valid points (sizes 0 and 1 included, JS objects
pairwise distinct) not containing the signer's derived public key, the
RingSignature produced by sign verifies to true.  The random draws of sign
(rc for the empty-ring branch, alpha, the signer slot pi and the fake
responses) are explicit arguments; pi is drawn below the pre-insertion ring
length as getRandomSecuredNumber(0, ring.length - 1) guarantees. -/
theorem spec_C1_sign_then_verify (kc : String → Nat) (ring : List PointO)
    (priv rc alpha : Int) (pi : Nat) (fakes : Nat → Int) (message : String)
    (hpriv : 1 ≤ priv ∧ priv < NsecpI)
    (hpi : ring.length ≠ 0 → pi < ring.length)
    (hids : ((ring.take pi ++ [pmul priv Gpt] ++ ring.drop pi).map PointO.oid).Nodup)
    (hdistinct : ((pmul priv Gpt :: ring).map PointO.v).Nodup) :
    ∃ sig, signModel kc ring priv message rc alpha pi fakes = .ok sig ∧
      verifyModel kc sig = .ok true := by
  by_cases hr : ring.length = 0
  · refine ⟨⟨message, [pmul priv Gpt], rc,
      [jsMod (jsMod (2 * rc + 1) NsecpI - rc * priv) NsecpI]⟩, ?_, ?_⟩
    · unfold signModel
      rw [if_pos hr, piSigModel_ok _ _ _ hpriv.1 hpriv.2]
    · rw [verifyModel_one kc ⟨message, [pmul priv Gpt], rc,
        [jsMod (jsMod (2 * rc + 1) NsecpI - rc * priv) NsecpI]⟩ rfl rfl]
      show Except.ok (verifyPiSigModel (jsMod (2 * rc + 1) NsecpI) (pmul priv Gpt) rc
        (jsMod (jsMod (2 * rc + 1) NsecpI - rc * priv) NsecpI)) = Except.ok true
      unfold verifyPiSigModel pointEqB
      rw [schnorr_point]
      simp
  · have hpilt : pi < ring.length := hpi hr
    set R2 := ring.take pi ++ [pmul priv Gpt] ++ ring.drop pi with hR2
    have hR2len : R2.length = ring.length + 1 := splice_length ring _ pi (by omega)
    set msgD := hexDigest kc message with hmsgD
    set fk := (List.range R2.length).map fakes with hfk
    have hfklen : fk.length = R2.length := by rw [hfk]; simp
    set seed := jsMod ((kc (ringStr R2 ++ msgD ++ pStr (pmul alpha Gpt)) : Int)) NsecpI
      with hseed
    set cV1N := chainList kc R2 msgD fk seed (pi + 1) (R2.length - pi - 2) with hcV1N
    set c0 := computeC kc R2 msgD (fk.getD (R2.length - 1) 0) (cV1N.getLastD 0)
      (R2.getD (R2.length - 1) Gpt) with hc0
    set cV0PI := chainList kc R2 msgD fk c0 0 pi with hcV0
    set cees := cV0PI ++ cV1N with hcees
    set cpi := cees.getD pi 0 with hcpi
    set rpi := jsMod (alpha - cpi * priv) NsecpI with hrpi
    set fin := fk.take pi ++ [rpi] ++ fk.drop (pi + 1) with hfin
    have hdup : (R2.map PointO.oid).dedup.length = R2.length := by
      rw [List.dedup_eq_self.mpr hids]
      simp
    have hsig := signatureModel_ok kc ring (pmul priv Gpt) message alpha pi fakes R2 msgD fk
      seed cV1N c0 cV0PI hR2 hmsgD hfk hseed hcV1N hc0 hcV0 hdup
    have hK : R2.getD pi Gpt = pmul priv Gpt := by
      rw [hR2]
      exact splice_getD_mid Gpt ring (pmul priv Gpt) pi pi (le_of_lt hpilt)
    have hclose := chain_closes kc R2 msgD fk pi alpha priv seed cV1N c0 cV0PI cees cpi rpi
      fin (by omega) (by omega) hK hseed hcV1N hc0 hcV0 hcees hcpi hrpi hfin
    have hcee0 : cees.getD 0 0 = c0 := by
      rw [hcees, getD_append_left 0 cV0PI cV1N 0 (by rw [hcV0, chainList_length]; omega),
        hcV0, chainList_getD_head]
    have hfinlen : fin.length = R2.length := by
      rw [hfin, splice_resp_length fk rpi pi (by omega), hfklen]
    refine ⟨⟨message, R2, c0, fin⟩, ?_, ?_⟩
    · unfold signModel
      rw [if_neg hr, hsig]
      show (match piSigModel alpha ((cV0PI ++ cV1N).getD pi 0) priv with
        | .error e => .error e
        | .ok sr => Except.ok (⟨message, R2, (cV0PI ++ cV1N).getD 0 0,
            fk.take pi ++ [sr] ++ fk.drop (pi + 1)⟩ : RingSigS)) =
        Except.ok (⟨message, R2, c0, fin⟩ : RingSigS)
      rw [← hcees, ← hcpi, piSigModel_ok alpha cpi priv hpriv.1 hpriv.2]
      show Except.ok (⟨message, R2, cees.getD 0 0,
          fk.take pi ++ [jsMod (alpha - cpi * priv) NsecpI] ++ fk.drop (pi + 1)⟩ : RingSigS) =
        Except.ok (⟨message, R2, c0, fin⟩ : RingSigS)
      rw [← hrpi, ← hfin, hcee0]
    · have hv := verifyModel_big kc ⟨message, R2, c0, fin⟩ (by simp; omega)
        (by simp [hfinlen])
      dsimp only at hv
      rw [hv, ← hmsgD, hclose.2]
      simp

theorem spec_C1_witness :
    ∃ sig, signModel kZero [⟨1, 2⟩] 1 "m" 3 5 0 (fun _ => 7) = .ok sig ∧
      verifyModel kZero sig = .ok true :=
  spec_C1_sign_then_verify kZero [⟨1, 2⟩] 1 3 5 0 (fun _ => 7) "m"
    (by decide) (by decide) (by decide) (by decide)

/-- C2: piSignature returns (alpha - c*privateKey) mod N, rejects a private
key that is 0 or at least N with InvalidParams, and for parameters in
[1, N-1] the produced response satisfies the Schnorr verification equation
G*r + (G*priv)*c = G*alpha, so verifyPiSignature accepts it. -/
theorem spec_C2_piSignature (alpha c priv : Int) :
    ((1 ≤ alpha ∧ alpha < NsecpI) → (1 ≤ c ∧ c < NsecpI) → (1 ≤ priv ∧ priv < NsecpI) →
      piSigModel alpha c priv = .ok (jsMod (alpha - c * priv) NsecpI) ∧
      verifyPiSigModel alpha (pmul priv Gpt) c (jsMod (alpha - c * priv) NsecpI) = true) ∧
    ((priv = 0 ∨ NsecpI ≤ priv) → piSigModel alpha c priv = .error .invalidParams) := by
  constructor
  · intro _ _ hp
    refine ⟨piSigModel_ok alpha c priv hp.1 hp.2, ?_⟩
    unfold verifyPiSigModel pointEqB
    rw [schnorr_point]
    simp
  · intro h
    unfold piSigModel
    rw [if_pos h]

theorem spec_C2_witness :
    piSigModel 2 3 1 = .ok (jsMod (2 - 3 * 1) NsecpI) ∧
    verifyPiSigModel 2 (pmul 1 Gpt) 3 (jsMod (2 - 3 * 1) NsecpI) = true :=
  (spec_C2_piSignature 2 3 1).1 (by decide) (by decide) (by decide)

theorem computeC_bounds (kc : String → Nat) (ring2 : List PointO) (msgD : String)
    (r c : Int) (pub : PointO) :
    0 ≤ computeC kc ring2 msgD r c pub ∧ computeC kc ring2 msgD r c pub < NsecpI := by
  unfold computeC
  exact jsMod_bounds _ (by decide)

/-- C3: every challenge produced by the chain during signing (the whole
cees list, seed included) and during verification (every chain value after
the caller-supplied c) is a hash reduced modulo N, hence lies in [0, N-1];
the chain steps are the computeC function by construction. -/
theorem spec_C3_challenges_mod_N :
    (∀ (kc : String → Nat) (ring : List PointO) (pub : PointO) (msg : String) (alpha : Int)
      (pi : Nat) (fakes : Nat → Int) (raw : RawSig),
      signatureModel kc ring pub msg alpha pi fakes = .ok raw →
      ∀ x ∈ raw.cees, 0 ≤ x ∧ x < NsecpI) ∧
    (∀ (kc : String → Nat) (ring2 : List PointO) (msgD : String) (resp : List Int)
      (c : Int) (idx k : Nat),
      ∀ x ∈ (chainList kc ring2 msgD resp c idx k).tail, 0 ≤ x ∧ x < NsecpI) := by
  constructor
  · intro kc ring pub msg alpha pi fakes raw h
    simp only [signatureModel] at h
    split at h
    · cases h
    · rw [Except.ok.injEq] at h
      subst h
      dsimp only
      intro x hx
      rcases List.mem_append.mp hx with h1 | h1 <;> rw [chainList_eq_cons] at h1 <;>
        rcases List.mem_cons.mp h1 with h2 | h2
      · subst h2
        exact computeC_bounds _ _ _ _ _ _
      · exact chainTail_mem_bounds _ _ _ _ _ _ _ x h2
      · subst h2
        exact jsMod_bounds _ (by decide)
      · exact chainTail_mem_bounds _ _ _ _ _ _ _ x h2
  · intro kc ring2 msgD resp c idx k x hx
    rw [chainList_eq_cons] at hx
    exact chainTail_mem_bounds kc ring2 msgD resp c idx k x hx

theorem spec_C3_witness : 0 ≤ (0 : Int) ∧ (0 : Int) < NsecpI :=
  spec_C3_challenges_mod_N.2 kZero [] "" [] 0 0 1 0 (by decide)

/-- C4: an empty caller ring makes sign behave as a single-member scheme:
c is the random draw, alpha = (2c + 1) mod N is deterministic, the sole
response is piSignature(alpha, c, priv), the result has ring length 1; and
verify of any length-1 signature returns exactly the Schnorr-relation check
with alpha recomputed as (2*c0 + 1) mod N, so the produced signature
verifies to true. -/
theorem spec_C4_degenerate_ring (kc : String → Nat) (priv rc alpha0 : Int) (pi0 : Nat)
    (fakes : Nat → Int) (msg : String) (hpriv : 1 ≤ priv ∧ priv < NsecpI) :
    (signModel kc [] priv msg rc alpha0 pi0 fakes = .ok ⟨msg, [pmul priv Gpt], rc,
        [jsMod (jsMod (2 * rc + 1) NsecpI - rc * priv) NsecpI]⟩ ∧
      verifyModel kc ⟨msg, [pmul priv Gpt], rc,
        [jsMod (jsMod (2 * rc + 1) NsecpI - rc * priv) NsecpI]⟩ = .ok true) ∧
    (∀ sig : RingSigS, sig.ring.length = 1 → sig.responses.length = 1 →
      verifyModel kc sig = .ok (verifyPiSigModel (jsMod (2 * sig.c + 1) NsecpI)
        (sig.ring.getD 0 Gpt) sig.c (sig.responses.getD 0 0))) := by
  refine ⟨⟨?_, ?_⟩, ?_⟩
  · unfold signModel
    rw [if_pos (show ([] : List PointO).length = 0 from rfl),
      piSigModel_ok _ _ _ hpriv.1 hpriv.2]
  · rw [verifyModel_one kc ⟨msg, [pmul priv Gpt], rc,
      [jsMod (jsMod (2 * rc + 1) NsecpI - rc * priv) NsecpI]⟩ rfl rfl]
    show Except.ok (verifyPiSigModel (jsMod (2 * rc + 1) NsecpI) (pmul priv Gpt) rc
      (jsMod (jsMod (2 * rc + 1) NsecpI - rc * priv) NsecpI)) = Except.ok true
    unfold verifyPiSigModel pointEqB
    rw [schnorr_point]
    simp
  · intro sig h1 h2
    exact verifyModel_one kc sig h1 h2

theorem spec_C4_witness :
    signModel kZero [] 1 "m" 2 0 0 (fun _ => 0) = .ok ⟨"m", [pmul 1 Gpt], 2,
      [jsMod (jsMod (2 * 2 + 1) NsecpI - 2 * 1) NsecpI]⟩ ∧
    verifyModel kZero ⟨"m", [pmul 1 Gpt], 2,
      [jsMod (jsMod (2 * 2 + 1) NsecpI - 2 * 1) NsecpI]⟩ = .ok true :=
  (spec_C4_degenerate_ring kZero 1 2 0 0 (fun _ => 0) "m" (by decide)).1

theorem computeCE_cases (kc : String → Nat) (ring2 : List PointO) (msgD : String)
    (r c : Int) (pub : PointO) :
    (∃ v, computeCE kc ring2 msgD r c pub = .ok v) ∨
      computeCE kc ring2 msgD r c pub = .error .invalidScalar := by
  unfold computeCE pmulE
  by_cases h1 : 1 ≤ r ∧ r < NsecpI
  · rw [if_pos h1]
    by_cases h2 : 1 ≤ c ∧ c < NsecpI
    · rw [if_pos h2]
      exact .inl ⟨_, rfl⟩
    · rw [if_neg h2]
      exact .inr rfl
  · rw [if_neg h1]
    exact .inr rfl

theorem chainLastE_cases (kc : String → Nat) (ring2 : List PointO) (msgD : String)
    (resp : List Int) (k : Nat) :
    ∀ (c : Int) (idx : Nat),
      (∃ v, chainLastE kc ring2 msgD resp c idx k = .ok v) ∨
        chainLastE kc ring2 msgD resp c idx k = .error .invalidScalar := by
  induction k with
  | zero => exact fun c idx => .inl ⟨c, rfl⟩
  | succ k2 ih =>
    intro c idx
    have hstep : chainLastE kc ring2 msgD resp c idx (k2 + 1) =
        match computeCE kc ring2 msgD (resp.getD idx 0) c (ring2.getD idx Gpt) with
        | .error e => .error e
        | .ok c2 => chainLastE kc ring2 msgD resp c2 (idx + 1) k2 := rfl
    rcases computeCE_cases kc ring2 msgD (resp.getD idx 0) c (ring2.getD idx Gpt) with
      ⟨v, hv⟩ | hv
    · rw [hstep, hv]
      exact ih v (idx + 1)
    · rw [hstep, hv]
      exact .inr rfl

theorem verifyPiSigModelE_cases (alpha : Int) (pub : PointO) (c r : Int) :
    (∃ b, verifyPiSigModelE alpha pub c r = .ok b) ∨
      verifyPiSigModelE alpha pub c r = .error .invalidScalar := by
  unfold verifyPiSigModelE pmulE
  by_cases h1 : 1 ≤ r ∧ r < NsecpI
  · rw [if_pos h1]
    by_cases h2 : 1 ≤ c ∧ c < NsecpI
    · rw [if_pos h2]
      by_cases h3 : 1 ≤ alpha ∧ alpha < NsecpI
      · rw [if_pos h3]
        exact .inl ⟨_, rfl⟩
      · rw [if_neg h3]
        exact .inr rfl
    · rw [if_neg h2]
      exact .inr rfl
  · rw [if_neg h1]
    exact .inr rfl

/-- C5 (amended): verify throws EmptyRing when ring.length = 0, checked
first, even when the responses length also differs; it throws
RingResponseLengthMismatch exactly when the ring is nonempty and
ring.length differs from responses.length; and for every other input it
either returns a boolean or raises InvalidScalar from scalar
multiplication, when the signature's c, a response, or a recomputed
challenge lies outside [1, N-1] (e.g. a deserialized c = 0) — no further
error kind can escape. -/
theorem spec_C5_verify_errors (kc : String → Nat) (sig : RingSigS) :
    (sig.ring.length = 0 → verifyModelE kc sig = .error .emptyRing) ∧
    (sig.ring.length ≠ 0 → sig.ring.length ≠ sig.responses.length →
      verifyModelE kc sig = .error .lenMismatch) ∧
    (sig.ring.length ≠ 0 → sig.ring.length = sig.responses.length →
      (∃ b, verifyModelE kc sig = .ok b) ∨
        verifyModelE kc sig = .error .invalidScalar) := by
  refine ⟨?_, ?_, ?_⟩
  · intro h
    unfold verifyModelE
    rw [if_pos h]
  · intro h1 h2
    unfold verifyModelE
    rw [if_neg h1, if_pos h2]
  · intro h1 h2
    unfold verifyModelE
    rw [if_neg h1, if_neg (by omega)]
    by_cases h3 : 1 < sig.ring.length
    · rw [if_pos h3]
      rcases chainLastE_cases kc sig.ring (hexDigest kc sig.message) sig.responses
        (sig.ring.length - 1) sig.c 0 with ⟨v, hv⟩ | hv
      · simp only [hv]
        rcases computeCE_cases kc sig.ring (hexDigest kc sig.message)
          (sig.responses.getD (sig.ring.length - 1) 0) v
          (sig.ring.getD (sig.ring.length - 1) Gpt) with ⟨w, hw⟩ | hw
        · simp only [hw]
          exact .inl ⟨_, rfl⟩
        · simp only [hw]
          exact .inr trivial
      · simp only [hv]
        exact .inr trivial
    · rw [if_neg h3]
      exact verifyPiSigModelE_cases _ _ _ _

theorem spec_C5_witness :
    (∃ b, verifyModelE kZero ⟨"m", [Gpt], 1, [1]⟩ = .ok b) ∨
      verifyModelE kZero ⟨"m", [Gpt], 1, [1]⟩ = .error .invalidScalar :=
  (spec_C5_verify_errors kZero ⟨"m", [Gpt], 1, [1]⟩).2.2 (by decide) (by decide)

/-- C5 counterexample: on an empty ring with one response the lengths
mismatch yet verify throws EmptyRing, not RingResponseLengthMismatch; and
on a nonempty, length-matched signature whose c is 0 (reachable through
deserialization, which performs no range check) verify raises InvalidScalar
from scalar multiplication instead of returning the boolean false. -/
theorem spec_C5_counterexample :
    verifyModelE kZero ⟨"m", [], 1, [1]⟩ = .error .emptyRing ∧
    ([] : List PointO).length ≠ [(1 : Int)].length ∧
    verifyModelE kZero ⟨"m", [], 1, [1]⟩ ≠ .error .lenMismatch ∧
    verifyModelE kZero ⟨"m", [⟨1, 2⟩, ⟨2, 3⟩], 0, [1, 1]⟩ = .error .invalidScalar := by
  decide

/-- C6: the dist signature() duplicate check is a JS Set of Point objects,
whose membership test is reference equality: a ring with two affine-equal
but distinct Point objects (same group value, different object id) passes
the check and the challenges are computed, with no DuplicateRingMember
error; the older array implementation (src/src/ringSignature.ts) compares
coordinates and does flag the same ring. -/
theorem spec_C6_duplicate_check_by_reference :
    exOk (signatureModel kZero [⟨1, 5⟩, ⟨2, 5⟩] ⟨3, 7⟩ "m" 1 0 (fun _ => 1)) = true ∧
    (⟨1, 5⟩ : PointO).v = (⟨2, 5⟩ : PointO).v ∧
    (⟨1, 5⟩ : PointO).oid ≠ (⟨2, 5⟩ : PointO).oid ∧
    oldRingHasDuplicate [(5, 5), (5, 5)] = true := by
  decide

/-- C7: the dist combine() performs no response validation: with a partial
signature holding nonzero responses and a zero signer response it returns a
RingSignature whose responses contain 0, instead of failing with
InvalidResponses as the spec and the test suite demand. -/
theorem spec_C7_combine_accepts_zero_response :
    combineModel ⟨"m", [⟨1, 2⟩, ⟨2, 3⟩], 5, 6, [7, 8], 0, 9⟩ 0 =
      .ok ⟨"m", [⟨1, 2⟩, ⟨2, 3⟩], 5, [0, 8]⟩ ∧ (0 : Int) ∈ [(0 : Int), 8] := by
  decide

/-- C8: in safe mode the mul ladder performs one point addition (into the
accumulator or into the decoy) and one doubling per scalar bit, so for two
scalars of the same bit length in [1, N-1] the operation counts coincide,
whatever the points are. -/
theorem spec_C8_mul_constant_ops (k1 k2 : Nat) (p1 p2 : PPoint)
    (h1 : 0 < k1 ∧ k1 < Nsecp) (h2 : 0 < k2 ∧ k2 < Nsecp)
    (hlen : bitLen k1 = bitLen k2) :
    ∃ r1 r2, nobleMulSafe p1 k1 = .ok r1 ∧ nobleMulSafe p2 k2 = .ok r2 ∧
      r1.2 = r2.2 := by
  have count : ∀ (n : Nat) (d p f : PPoint) (a b : Nat),
      (mulLoop d p f n a b).2 = (a + bitLen n, b + bitLen n) := by
    intro n
    induction n using Nat.strong_induction_on with
    | _ n ih =>
      intro d p f a b
      by_cases h : n = 0
      · subst h
        unfold mulLoop bitLen
        simp
      · unfold mulLoop bitLen
        rw [dif_neg h, dif_neg h, ih (n / 2) (Nat.div_lt_self (Nat.pos_of_ne_zero h) one_lt_two),
          Prod.mk.injEq]
        omega
  unfold nobleMulSafe
  rw [if_pos h1, if_pos h2]
  exact ⟨_, _, rfl, rfl, by rw [count, count, hlen]⟩

theorem bitLen_pos_eq (n : Nat) (h : n ≠ 0) : bitLen n = bitLen (n / 2) + 1 := by
  conv_lhs => rw [bitLen]
  rw [dif_neg h]

theorem spec_C8_witness :
    ∃ r1 r2, nobleMulSafe Gnoble 2 = .ok r1 ∧ nobleMulSafe Inoble 3 = .ok r2 ∧
      r1.2 = r2.2 :=
  spec_C8_mul_constant_ops 2 3 Gnoble Inoble (by decide) (by decide)
    (by rw [bitLen_pos_eq 2 (by decide), bitLen_pos_eq 3 (by decide)])

/-- C9 (amended): the identity has affine form (0, 0); isOnCurve is false
for any coordinate outside (0, P); and every duplicate-free ring containing
the identity is rejected by checkRing with InvalidPoint (a ring listing the
identity twice is rejected as well, but with DuplicateRingMember). -/
theorem spec_C9_identity_never_valid :
    toAffineNoble Inoble = .ok (0, 0) ∧
    (∀ x y : Int, (x ≤ 0 ∨ Psecp ≤ x ∨ y ≤ 0 ∨ Psecp ≤ y) → isOnCurveSecp x y = false) ∧
    (∀ (ring : List (Int × Int)) (ae : Bool), ((0 : Int), (0 : Int)) ∈ ring → ring.Nodup →
      checkRingModel ring ae = .error .invalidPoint) := by
  refine ⟨by decide, ?_, ?_⟩
  · intro x y h
    unfold isOnCurveSecp
    split
    · rfl
    · next hcond =>
        exfalso
        simp only [Bool.or_eq_true, decide_eq_true_eq, not_or] at hcond
        omega
  · intro ring ae hmem hnodup
    have h0 : ring.length ≠ 0 := by
      cases ring
      · simp at hmem
      · simp
    unfold checkRingModel
    rw [if_neg (by simp [h0]), if_neg (by rw [List.dedup_eq_self.mpr hnodup]; simp),
      if_pos (by rw [List.any_eq_true]; exact ⟨(0, 0), hmem, by decide⟩)]

theorem spec_C9_witness :
    isOnCurveSecp 0 1 = false ∧
    checkRingModel [((0 : Int), (0 : Int))] false = .error .invalidPoint :=
  ⟨spec_C9_identity_never_valid.2.1 0 1 (by decide),
   spec_C9_identity_never_valid.2.2 [((0 : Int), (0 : Int))] false (by decide) (by decide)⟩

/-- C9 counterexample: a ring listing the identity twice is rejected with
DuplicateRingMember, not InvalidPoint, so not every ring containing the
identity is rejected with InvalidPoint. -/
theorem spec_C9_counterexample :
    ((0 : Int), (0 : Int)) ∈ [((0 : Int), (0 : Int)), ((0 : Int), (0 : Int))] ∧
    checkRingModel [((0 : Int), (0 : Int)), ((0 : Int), (0 : Int))] false =
      .error .duplicates ∧
    checkRingModel [((0 : Int), (0 : Int)), ((0 : Int), (0 : Int))] false ≠
      .error .invalidPoint := by
  decide

/-- C10: the modular-reduction helper is total and canonical: for every
integer a and positive modulus b, mod(a, b) lies in [0, b) and is congruent
to a modulo b. -/
theorem spec_C10_mod_total_canonical (a b : Int) (hb : 0 < b) :
    0 ≤ jsMod a b ∧ jsMod a b < b ∧ jsMod a b % b = a % b :=
  ⟨(jsMod_bounds a hb).1, (jsMod_bounds a hb).2, jsMod_emod a b⟩

theorem spec_C10_witness :
    0 ≤ jsMod (-5) 3 ∧ jsMod (-5) 3 < 3 ∧ jsMod (-5) 3 % 3 = (-5) % 3 :=
  spec_C10_mod_total_canonical (-5) 3 (by decide)
